import Mathlib

/-!
Shallow embedding of the CLI integration layer of the proton-pass
Raycast extension (src/lib/pass-cli.ts, src/lib/cache.ts, src/lib/utils.ts).

JSON values produced by JSON.parse are modelled by the inductive type
Json below; the JavaScript value undefined is modelled by Option.none
wherever the source can observe it (property access on a missing key,
functions returning undefined).  String operations (trim, toLowerCase,
includes, the default sort comparator) are re-implemented over character
lists so that every definition evaluates inside the kernel; they agree
with the JavaScript operations on the texts that occur here.  Numbers are
modelled by Int: the only numeric conversion in the modelled code is the
itemCount fallback of normalizeVault, and no claim depends on non-integer
numerals.
-/

namespace ProtonPass

/-- Whitespace test used by the modelled String.prototype.trim. -/
def jsIsWhitespace (c : Char) : Bool :=
  c = ' ' || c = '\t' || c = '\n' || c = '\r' || c = '\x0c' || c = '\x0b'

/-- Drops whitespace from both ends of a character list. -/
def trimCharList (l : List Char) : List Char :=
  ((l.dropWhile jsIsWhitespace).reverse.dropWhile jsIsWhitespace).reverse

/-- Model of String.prototype.trim. -/
def jsTrim (s : String) : String := String.mk (trimCharList s.data)

/-- ASCII lower-casing of a single character (A-Z to a-z). -/
def jsCharToLower (c : Char) : Char :=
  if 'A' ≤ c && c ≤ 'Z' then Char.ofNat (c.toNat + 32) else c

/-- Model of String.prototype.toLowerCase (ASCII range). -/
def jsToLower (s : String) : String := String.mk (s.data.map jsCharToLower)

/-- Tests whether the first list is a prefix of the second. -/
def isPreCharList : List Char → List Char → Bool
  | [], _ => true
  | _ :: _, [] => false
  | a :: as, b :: bs => a = b && isPreCharList as bs

/-- Tests whether pat occurs as a contiguous run inside the second list. -/
def hasSubCharList (pat : List Char) : List Char → Bool
  | [] => isPreCharList pat []
  | c :: rest => isPreCharList pat (c :: rest) || hasSubCharList pat rest

/-- Model of String.prototype.includes: does s contain pat. -/
def jsIncludes (s pat : String) : Bool := hasSubCharList pat.data s.data

/-- Lexicographic order on character lists by code point, the order the
default Array.prototype.sort comparator induces on the strings here. -/
def charListLe : List Char → List Char → Bool
  | [], _ => true
  | _ :: _, [] => false
  | a :: as, b :: bs => if a = b then charListLe as bs else decide (a < b)

/-- Lexicographic comparison of strings. -/
def jsStrLe (a b : String) : Bool := charListLe a.data b.data

/-- Stable insertion of a string into a list sorted by jsStrLe. -/
def insertStr (x : String) : List String → List String
  | [] => [x]
  | y :: ys => if jsStrLe x y then x :: y :: ys else y :: insertStr x ys

/-- Model of Array.prototype.sort with the default comparator, as used on
Object.keys(codes) in getTotp. -/
def jsSortStrings : List String → List String
  | [] => []
  | x :: xs => insertStr x (jsSortStrings xs)

/-- Decimal digit list of a natural number, by fuelled division. -/
def natToCharsAux : Nat → Nat → List Char → List Char
  | 0, _, acc => acc
  | fuel + 1, n, acc =>
    let d := Char.ofNat (48 + n % 10)
    if n < 10 then d :: acc else natToCharsAux fuel (n / 10) (d :: acc)

/-- Decimal rendering of a natural number (array indices as object keys). -/
def natToString (n : Nat) : String := String.mk (natToCharsAux (n + 1) n [])

/-- JSON values as produced by JSON.parse.  Numbers are restricted to
integers; no modelled code path distinguishes further. -/
inductive Json where
  | null
  | bool (b : Bool)
  | num (n : Int)
  | str (s : String)
  | arr (elems : List Json)
  | obj (fields : List (String × Json))

/-- First-match lookup among the fields of an object.  Objects produced by
JSON.parse have pairwise distinct keys, so this agrees with JavaScript
property access on them. -/
def lookupField : List (String × Json) → String → Option Json
  | [], _ => none
  | (k, v) :: rest, key => if k = key then some v else lookupField rest key

/-- Property access: returns none for a missing key (undefined) and for
access on a non-object, as in the guarded accesses of the source. -/
def Json.get? : Json → String → Option Json
  | .obj fields, key => lookupField fields key
  | _, _ => none

/-- Model of isRecord from pass-cli.ts: typeof value is object and value is
not null.  JavaScript reports typeof of an array as object, so arrays
satisfy this test; their keyed property accesses then yield undefined. -/
def isRecord : Json → Bool
  | .obj _ => true
  | .arr _ => true
  | _ => false

/-- isRecord lifted to a possibly-undefined value. -/
def isRecordOpt : Option Json → Bool
  | some j => isRecord j
  | none => false

/-- Model of the nullish-coalescing operator on possibly-undefined JSON
values: the left operand wins unless it is undefined or null. -/
def jsCoalesce (a b : Option Json) : Option Json :=
  match a with
  | none => b
  | some .null => b
  | some v => some v

/-- Model of trimOrUndefined from pass-cli.ts: a non-string yields
undefined, a string is trimmed and an empty result yields undefined. -/
def trimOrUndefined (value : Option Json) : Option String :=
  match value with
  | some (.str s) =>
    let trimmed := jsTrim s
    if trimmed.data.isEmpty then none else some trimmed
  | _ => none

/-- JavaScript truthiness restricted to the optional strings that flow
through getTotp: undefined and the empty string are falsy. -/
def jsTruthy : Option String → Option String
  | some s => if s.data.isEmpty then none else some s
  | none => none

/-- Vault roles; anything unrecognized normalizes to viewer. -/
inductive VaultRole where
  | owner | manager | editor | viewer
deriving DecidableEq, Repr

/-- Item kinds recognized by the extension (alias is spelt aliasItem
because alias is reserved in Lean). -/
inductive ItemType where
  | login | note | credit_card | identity | aliasItem | ssh_key | wifi
deriving DecidableEq, Repr

/-- Error taxonomy of PassCliErrorType from types.ts. -/
inductive PassCliErrorType where
  | not_installed | not_authenticated | network_error | keyring_error
  | timeout | invalid_output | unknown
deriving DecidableEq, Repr

/-- Model of the PassCliError class: a message and a classified type. -/
structure PassCliError where
  message : String
  type : PassCliErrorType
deriving DecidableEq, Repr

/-- Normalized vault record. -/
structure Vault where
  shareId : String
  name : String
  itemCount : Int
  role : VaultRole
deriving DecidableEq, Repr

/-- Normalized item record (list-view projection). -/
structure Item where
  shareId : String
  itemId : String
  title : String
  type : ItemType
  vaultName : String
  username : Option String
  email : Option String
  hasTotp : Bool
deriving DecidableEq, Repr

/-- Kinds of custom fields. -/
inductive CustomFieldType where
  | text | hidden
deriving DecidableEq, Repr

/-- Normalized custom field. -/
structure CustomField where
  name : String
  value : String
  type : CustomFieldType
deriving DecidableEq, Repr

/-- Error thrown by normalizeVault. -/
def vaultDataError : PassCliError :=
  { message := "Unexpected vault data from pass-cli.", type := .invalid_output }

/-- Error thrown by normalizeItem. -/
def itemDataError : PassCliError :=
  { message := "Unexpected item data from pass-cli.", type := .invalid_output }

/-- Error thrown by listItemsFromVault on a non-array item payload. -/
def itemListOutputError : PassCliError :=
  { message := "Unexpected item list output from pass-cli.", type := .invalid_output }

/-- Error thrown by getTotpCodes on a non-record payload. -/
def totpOutputError : PassCliError :=
  { message := "Unexpected TOTP output from pass-cli.", type := .invalid_output }

/-- Error thrown by getTotp when no usable code exists. -/
def totpNoFieldsError : PassCliError :=
  { message := "No TOTP fields found for this item.", type := .invalid_output }

/-- Model of classifyCliError from pass-cli.ts: lower-cases the combined
text and scans phrase groups in keyring, authentication, network order. -/
def classifyCliError (text : String) : PassCliErrorType :=
  let normalized := jsToLower text
  if jsIncludes normalized "cannot get the encryption key" ||
      jsIncludes normalized "error creating client features" then
    .keyring_error
  else if jsIncludes normalized "requires an authenticated client" ||
      jsIncludes normalized "not authenticated" ||
      jsIncludes normalized "login required" ||
      jsIncludes normalized "please login" ||
      jsIncludes normalized "not logged in" then
    .not_authenticated
  else if jsIncludes normalized "network" ||
      jsIncludes normalized "timeout" ||
      jsIncludes normalized "timed out" ||
      jsIncludes normalized "connection" ||
      jsIncludes normalized "dns" then
    .network_error
  else
    .unknown

/-- Observable shape of the exception runCli catches: the killed flag and
signal of a timed-out child, the ENOENT indicators, the Error message and
the captured stderr (none when stderr is not a string). -/
structure ExecFailure where
  killed : Bool
  signal : Option String
  code : Option String
  errno : Option Int
  message : String
  stderr : Option String

/-- Joins non-empty parts with a newline, as in runCli. -/
def joinWithNewline : List String → String
  | [] => ""
  | [s] => s
  | s :: rest => String.mk (s.data ++ '\n' :: (joinWithNewline rest).data)

/-- Combined stderr and exception text built by runCli before
classification: both parts trimmed, empty parts dropped. -/
def combinedFailureText (f : ExecFailure) : String :=
  let stderrText := match f.stderr with | some s => s | none => ""
  joinWithNewline (([stderrText, f.message].map jsTrim).filter (fun s => !s.data.isEmpty))

/-- Classification performed by the catch branch of runCli: a killed
process with a signal is a timeout, an ENOENT condition is not_installed,
everything else is classified from the combined text. -/
def runCliErrorType (f : ExecFailure) : PassCliErrorType :=
  if f.killed && f.signal.isSome then .timeout
  else if decide (f.code = some "ENOENT") || decide (f.errno = some (-2 : Int)) then .not_installed
  else classifyCliError (combinedFailureText f)

/-- Key-storage phrases named by the specification. -/
def keyringPhrases : List String :=
  ["cannot get the encryption key", "error creating client features"]

/-- Authentication-required phrases named by the specification. -/
def authRequiredPhrases : List String :=
  ["requires an authenticated client", "not authenticated", "login required",
   "please login", "not logged in"]

/-- Network, timeout, connection and DNS phrases named by the
specification. -/
def networkTroublePhrases : List String :=
  ["network", "timeout", "timed out", "connection", "dns"]

/-- Does the text contain any phrase of the group. -/
def textMatchesAny (phrases : List String) (text : String) : Bool :=
  phrases.any (fun p => jsIncludes text p)

/-- Failure classification as the specification words it: the six cases in
the stated precedence, evaluated case-insensitively over the combined
stderr and exception text. -/
def specFailureClassification (f : ExecFailure) : PassCliErrorType :=
  if f.killed && f.signal.isSome then .timeout
  else if decide (f.code = some "ENOENT") || decide (f.errno = some (-2 : Int)) then .not_installed
  else
    let text := jsToLower (combinedFailureText f)
    if textMatchesAny keyringPhrases text then .keyring_error
    else if textMatchesAny authRequiredPhrases text then .not_authenticated
    else if textMatchesAny networkTroublePhrases text then .network_error
    else .unknown

/-- Model of normalizeVaultRole: recognized role names after trimming and
lower-casing, defaulting to viewer. -/
def normalizeVaultRole (value : Option Json) : VaultRole :=
  match (trimOrUndefined value).map jsToLower with
  | some "owner" => .owner
  | some "manager" => .manager
  | some "editor" => .editor
  | some "viewer" => .viewer
  | _ => .viewer

/-- Model of the JavaScript Number conversion for the values that reach it
in normalizeVault; none stands for NaN.  Non-integer numerals and
multi-element arrays are outside the model. -/
def jsNumber : Json → Option Int
  | .null => some 0
  | .bool b => some (if b then 1 else 0)
  | .num n => some n
  | .str s =>
    let t := jsTrim s
    if t.data.isEmpty then some 0 else parseDecimal t.data
  | .arr [] => some 0
  | .arr (_ :: _) => none
  | .obj _ => none
where
  /-- Decimal integer parse of a trimmed character list. -/
  parseDecimal (l : List Char) : Option Int :=
    match l with
    | '-' :: rest => (parseDigits rest).map (fun n => -(n : Int))
    | _ => (parseDigits l).map (fun n => (n : Int))
  /-- Digit-list parse of a natural number. -/
  parseDigits (l : List Char) : Option Nat :=
    match l with
    | [] => none
    | _ =>
      l.foldl
        (fun acc c =>
          match acc with
          | none => none
          | some n => if c.isDigit then some (n * 10 + (c.toNat - 48)) else none)
        (some 0)

/-- Model of normalizeVault: accepts the historical share-id and item-count
spellings, requires a non-empty share id and name, and coerces the item
count with a zero fallback. -/
def normalizeVault (raw : Json) : Except PassCliError Vault :=
  if isRecord raw then
    let shareId := trimOrUndefined (jsCoalesce (raw.get? "share_id")
      (jsCoalesce (raw.get? "shareId") (jsCoalesce (raw.get? "shareID") (raw.get? "id"))))
    let name := trimOrUndefined (raw.get? "name")
    let itemCountValue := jsCoalesce (raw.get? "itemCount")
      (jsCoalesce (raw.get? "item_count") (jsCoalesce (raw.get? "items_count") (raw.get? "itemsCount")))
    let itemCount : Option Int :=
      match itemCountValue with
      | some (.num n) => some n
      | other => jsNumber ((jsCoalesce other (some (.num 0))).getD (.num 0))
    let role := normalizeVaultRole (raw.get? "role")
    match shareId, name with
    | some sid, some nm =>
      .ok { shareId := sid, name := nm, itemCount := itemCount.getD 0, role := role }
    | _, _ => .error vaultDataError
  else .error vaultDataError

/-- Model of getItemTypeFromContent: inspects the inner content object for
the discriminator keys in source order and defaults to note.  The second
component is the Login payload when the item is a login. -/
def getItemTypeFromContent (contentData : Option Json) : ItemType × Option Json :=
  match contentData with
  | some cd =>
    if isRecord cd then
      if isRecordOpt (cd.get? "Login") then (.login, cd.get? "Login")
      else if isRecordOpt (cd.get? "Note") || (cd.get? "Note").isSome then (.note, none)
      else if isRecordOpt (cd.get? "CreditCard") || isRecordOpt (cd.get? "credit_card") then
        (.credit_card, none)
      else if isRecordOpt (cd.get? "Identity") then (.identity, none)
      else if isRecordOpt (cd.get? "Alias") then (.aliasItem, none)
      else if isRecordOpt (cd.get? "SshKey") || isRecordOpt (cd.get? "ssh_key") then
        (.ssh_key, none)
      else if isRecordOpt (cd.get? "Wifi") then (.wifi, none)
      else (.note, none)
    else (.note, none)
  | none => (.note, none)

/-- Discriminator rules in the order the specification lists them, as a
strategy table: the first rule whose test succeeds names the type. -/
def itemTypeRules : List ((Json → Bool) × ItemType) :=
  [(fun cd => isRecordOpt (cd.get? "Login"), .login),
   (fun cd => isRecordOpt (cd.get? "Note") || (cd.get? "Note").isSome, .note),
   (fun cd => isRecordOpt (cd.get? "CreditCard") || isRecordOpt (cd.get? "credit_card"), .credit_card),
   (fun cd => isRecordOpt (cd.get? "Identity"), .identity),
   (fun cd => isRecordOpt (cd.get? "Alias"), .aliasItem),
   (fun cd => isRecordOpt (cd.get? "SshKey") || isRecordOpt (cd.get? "ssh_key"), .ssh_key),
   (fun cd => isRecordOpt (cd.get? "Wifi"), .wifi)]

/-- Item-type detection as the specification words it: first matching rule
wins, absence of any recognized key defaults to note. -/
def specItemTypeFirstMatch (contentData : Option Json) : ItemType :=
  match contentData with
  | some cd =>
    if isRecord cd then
      match itemTypeRules.find? (fun r => r.1 cd) with
      | some r => r.2
      | none => .note
    else .note
  | none => .note

/-- Model of normalizeItem: resolves ids, title, type, login sub-fields and
vault name, failing when share id, item id or title is missing. -/
def normalizeItem (raw : Json) (vaultNameOverride : Option String) : Except PassCliError Item :=
  if isRecord raw then
    let shareId := trimOrUndefined (jsCoalesce (raw.get? "share_id")
      (jsCoalesce (raw.get? "shareId") (jsCoalesce (raw.get? "shareID")
        (jsCoalesce (raw.get? "vaultShareId") (raw.get? "vault_share_id")))))
    let itemId := trimOrUndefined (jsCoalesce (raw.get? "id")
      (jsCoalesce (raw.get? "itemId") (jsCoalesce (raw.get? "item_id") (raw.get? "itemID"))))
    let outerContent := if isRecordOpt (raw.get? "content") then (raw.get? "content").getD .null else raw
    let title := trimOrUndefined (jsCoalesce (outerContent.get? "title")
      (jsCoalesce (raw.get? "title") (raw.get? "name")))
    let innerContent := if isRecordOpt (outerContent.get? "content") then outerContent.get? "content" else none
    let td := getItemTypeFromContent innerContent
    let username := match td.2 with
      | some ld => trimOrUndefined (ld.get? "username")
      | none => trimOrUndefined (raw.get? "username")
    let email := match td.2 with
      | some ld => trimOrUndefined (ld.get? "email")
      | none => trimOrUndefined (raw.get? "email")
    let totpUri := match td.2 with
      | some ld => trimOrUndefined (jsCoalesce (ld.get? "totp_uri") (ld.get? "totpUri"))
      | none => none
    let vaultName := match vaultNameOverride with
      | some v => v
      | none => (trimOrUndefined (jsCoalesce (raw.get? "vaultName") (raw.get? "vault_name"))).getD "Unknown Vault"
    match shareId, itemId, title with
    | some sid, some iid, some t =>
      .ok { shareId := sid, itemId := iid, title := t, type := td.1, vaultName := vaultName,
            username := username, email := email, hasTotp := totpUri.isSome }
    | _, _, _ => .error itemDataError
  else .error itemDataError

/-- Per-entry part of normalizeCustomFields: a non-object entry or one
without a usable name or value maps to undefined. -/
def normalizeCustomFieldEntry (field : Json) : Option CustomField :=
  if isRecord field then
    let name := trimOrUndefined (jsCoalesce (field.get? "name") (field.get? "key"))
    let value := trimOrUndefined (field.get? "value")
    let typeRaw := (trimOrUndefined (field.get? "type")).map jsToLower
    let ftype : CustomFieldType := if typeRaw = some "hidden" then .hidden else .text
    match name, value with
    | some n, some v => some { name := n, value := v, type := ftype }
    | _, _ => none
  else none

/-- Model of normalizeCustomFields: non-arrays normalize to absent, invalid
entries are dropped individually, an empty result normalizes to absent. -/
def normalizeCustomFields (raw : Option Json) : Option (List CustomField) :=
  match raw with
  | none => none
  | some .null => none
  | some (.arr l) =>
    let mapped := l.filterMap normalizeCustomFieldEntry
    if mapped.isEmpty then none else some mapped
  | some _ => none

/-- Filter predicate of listItemsFromVault: keep object-typed entries whose
trimmed state is not Trashed. -/
def keepItemEntry (item : Json) : Bool :=
  isRecord item && decide (trimOrUndefined (item.get? "state") ≠ some "Trashed")

/-- Model of Array.prototype.map over a throwing callback: the first
normalization failure aborts the whole mapping. -/
def mapOrFirstError (f : Json → Except PassCliError Item) : List Json → Except PassCliError (List Item)
  | [] => .ok []
  | x :: xs =>
    match f x with
    | .error e => .error e
    | .ok y =>
      match mapOrFirstError f xs with
      | .error e => .error e
      | .ok ys => .ok (y :: ys)

/-- Filter-then-normalize stage of listItemsFromVault. -/
def listItemsPipeline (vaultName : String) (itemsRaw : List Json) : Except PassCliError (List Item) :=
  mapOrFirstError (fun item => normalizeItem item (some vaultName)) (itemsRaw.filter keepItemEntry)

/-- Model of listItemsFromVault after JSON parsing: unwraps an optional
items envelope, rejects non-array payloads, filters, then normalizes. -/
def listItemsFromVaultRaw (vaultName : String) (data : Json) : Except PassCliError (List Item) :=
  let itemsRaw : Option (List Json) :=
    match data with
    | .arr l => some l
    | _ =>
      if isRecord data then
        match data.get? "items" with
        | some (.arr l) => some l
        | _ => none
      else none
  match itemsRaw with
  | some l => listItemsPipeline vaultName l
  | none => .error itemListOutputError

/-- Decidable equality for Except results, used to evaluate the model on
concrete payloads. -/
instance exceptDecEq {α β : Type} [DecidableEq α] [DecidableEq β] : DecidableEq (Except α β)
  | .error a, .error b =>
    if h : a = b then isTrue (by rw [h]) else isFalse (by intro hc; cases hc; exact h rfl)
  | .error _, .ok _ => isFalse (by intro h; exact Except.noConfusion h)
  | .ok _, .error _ => isFalse (by intro h; exact Except.noConfusion h)
  | .ok a, .ok b =>
    if h : a = b then isTrue (by rw [h]) else isFalse (by intro hc; cases hc; exact h rfl)

/-- Failures the authentication probe can raise: a classified PassCliError
from runCli, or any other exception. -/
inductive RunFailure where
  | cli (e : PassCliError)
  | other (message : String)
deriving DecidableEq, Repr

/-- Model of checkAuth over the outcome of the probe invocation: success
maps to true, a not_authenticated PassCliError is collapsed to false, and
every other failure is re-thrown unchanged. -/
def checkAuth (probe : Except RunFailure Unit) : Except RunFailure Bool :=
  match probe with
  | .ok _ => .ok true
  | .error (.cli e) => if e.type = .not_authenticated then .ok false else .error (.cli e)
  | .error (.other m) => .error (.other m)

/-- Model of Object.entries: object fields in order, array elements keyed
by their decimal index. -/
def jsEntries : Json → List (String × Json)
  | .obj fields => fields
  | .arr l => (l.enum.map fun p => (natToString p.1, p.2))
  | _ => []

/-- Usable codes extracted from a TOTP mapping: entries whose value trims
to a non-empty string, values trimmed, order kept. -/
def usableCodes (entries : List (String × Json)) : List (String × String) :=
  entries.filterMap fun kv => (trimOrUndefined (some kv.2)).map fun s => (kv.1, s)

/-- First-match lookup in a string-valued association list (objects built
by Object.fromEntries from JSON data have pairwise distinct keys). -/
def lookupStr : List (String × String) → String → Option String
  | [], _ => none
  | (k, v) :: rest, key => if k = key then some v else lookupStr rest key

/-- Model of getTotpCodes after JSON parsing: unwraps an optional totps
record, rejects non-record payloads, and keeps entries with usable
values. -/
def getTotpCodes (data : Json) : Except PassCliError (List (String × String)) :=
  let raw := if isRecord data && isRecordOpt (data.get? "totps") then (data.get? "totps").getD .null else data
  if isRecord raw then .ok (usableCodes (jsEntries raw))
  else .error totpOutputError

/-- Model of getTotp: prefer the key named totp, otherwise the first key of
the sorted key list, failing when no usable value exists.  The source
guards the fallback lookup with the truthiness of firstKey itself, so an
empty-string first key (falsy in JavaScript) also leads to the failure
branch; jsTruthy applied to firstKey models that guard. -/
def getTotp (data : Json) : Except PassCliError String :=
  match getTotpCodes data with
  | .error e => .error e
  | .ok codes =>
    match jsTruthy (lookupStr codes "totp") with
    | some v => .ok v
    | none =>
      let firstKey := (jsSortStrings (codes.map Prod.fst)).head?
      let first := match jsTruthy firstKey with | some k => lookupStr codes k | none => none
      match jsTruthy first with
      | some v => .ok v
      | none => .error totpNoFieldsError

/-- Cache envelope from cache.ts. -/
structure CachedData (α : Type) where
  data : α
  timestamp : Int

/-- Observable content of one LocalStorage slot: absent or empty text,
text that fails to deserialize as a cache envelope, or a stored
envelope. -/
inductive SlotContent (α : Type) where
  | missing
  | corrupt (raw : String)
  | stored (cached : CachedData α)

/-- Cache TTL from cache.ts: five minutes in milliseconds. -/
def CACHE_TTL_MS : Int := 5 * 60 * 1000

/-- Model of isCacheValid: age strictly below the TTL. -/
def isCacheValid {α : Type} (now : Int) (cached : CachedData α) : Bool :=
  decide (now - cached.timestamp < CACHE_TTL_MS)

/-- Model of getCachedVaults: absent or undeserializable text reads as
null, a stored envelope reads as its data only while valid. -/
def getCachedVaults (slot : SlotContent (List Vault)) (now : Int) : Option (List Vault) :=
  match slot with
  | .missing => none
  | .corrupt _ => none
  | .stored c => if isCacheValid now c then some c.data else none

/-- Model of setCachedVaults: overwrites the slot with the current
timestamp. -/
def setCachedVaults (vaults : List Vault) (now : Int) : SlotContent (List Vault) :=
  .stored { data := vaults, timestamp := now }

/-- Model of getCachedItems, identical in shape to the vault slot. -/
def getCachedItems (slot : SlotContent (List Item)) (now : Int) : Option (List Item) :=
  match slot with
  | .missing => none
  | .corrupt _ => none
  | .stored c => if isCacheValid now c then some c.data else none

/-- Model of setCachedItems. -/
def setCachedItems (items : List Item) (now : Int) : SlotContent (List Item) :=
  .stored { data := items, timestamp := now }

/-- Model of getTotpRemainingSeconds from utils.ts, as a function of the
current epoch time in milliseconds. -/
def getTotpRemainingSeconds (nowMs : Nat) : Nat :=
  let now := nowMs / 1000
  let timeStep := 30
  let secondsElapsed := now % timeStep
  timeStep - secondsElapsed

/-- A value accepted by trimOrUndefined is a non-empty string. -/
theorem trim_some_isEmpty_false {v : Option Json} {s : String}
    (h : trimOrUndefined v = some s) : s.data.isEmpty = false := by
  cases v with
  | none => simp [trimOrUndefined] at h
  | some j =>
    cases j with
    | str s1 =>
      simp only [trimOrUndefined] at h
      split at h
      · exact Option.noConfusion h
      · rename_i hne
        cases h
        simpa using hne
    | null => simp [trimOrUndefined] at h
    | bool b => simp [trimOrUndefined] at h
    | num n => simp [trimOrUndefined] at h
    | arr l => simp [trimOrUndefined] at h
    | obj fs => simp [trimOrUndefined] at h

/-- A value accepted by trimOrUndefined differs from the empty string. -/
theorem trim_some_ne_empty {v : Option Json} {s : String}
    (h : trimOrUndefined v = some s) : s ≠ "" := by
  intro he
  subst he
  simpa using trim_some_isEmpty_false h

/-- Nullish coalescing cannot create a usable string out of two unusable
operands. -/
theorem trim_coalesce_none {a b : Option Json}
    (ha : trimOrUndefined a = none) (hb : trimOrUndefined b = none) :
    trimOrUndefined (jsCoalesce a b) = none := by
  cases a with
  | none => simpa [jsCoalesce]
  | some v => cases v <;> simp_all [jsCoalesce, trimOrUndefined]

/-- C9: for every non-negative epoch instant, getTotpRemainingSeconds
returns exactly 30 minus the current epoch second modulo 30, and the
result always lies in the closed interval from 1 to 30. -/
theorem c9_totp_remaining_seconds (nowMs : Nat) :
    getTotpRemainingSeconds nowMs = 30 - (nowMs / 1000) % 30 ∧
    1 ≤ getTotpRemainingSeconds nowMs ∧ getTotpRemainingSeconds nowMs ≤ 30 := by
  have hdef : getTotpRemainingSeconds nowMs = 30 - (nowMs / 1000) % 30 := rfl
  have h : (nowMs / 1000) % 30 < 30 := Nat.mod_lt _ (by norm_num)
  refine ⟨hdef, ?_, ?_⟩ <;> rw [hdef] <;> omega

/-- C5: a cache slot written at one instant reads back the same list at
every instant whose distance from the write is strictly below the
five-minute TTL and reads as absent at or beyond the TTL; text that fails
to deserialize, and a missing slot, read as absent; both the vault and the
item slot behave this way. -/
theorem c5_cache_round_trip (vaults : List Vault) (items : List Item)
    (twrite tread : Int) (raw : String) :
    getCachedVaults (setCachedVaults vaults twrite) tread =
      (if tread - twrite < CACHE_TTL_MS then some vaults else none) ∧
    getCachedItems (setCachedItems items twrite) tread =
      (if tread - twrite < CACHE_TTL_MS then some items else none) ∧
    getCachedVaults (SlotContent.corrupt raw) tread = none ∧
    getCachedItems (SlotContent.corrupt raw) tread = none ∧
    getCachedVaults SlotContent.missing tread = none ∧
    getCachedItems SlotContent.missing tread = none := by
  refine ⟨?_, ?_, rfl, rfl, rfl, rfl⟩ <;>
    simp [getCachedVaults, getCachedItems, setCachedVaults, setCachedItems, isCacheValid]

/-- C6: checkAuth returns false exactly when the probe fails with a
PassCliError of type not_authenticated, returns true exactly when the
probe succeeds, and re-raises every other failure unchanged. -/
theorem c6_checkAuth_collapse (probe : Except RunFailure Unit) :
    (checkAuth probe = .ok false ↔
      ∃ e, probe = .error (.cli e) ∧ e.type = .not_authenticated) ∧
    (checkAuth probe = .ok true ↔ probe = .ok ()) ∧
    (∀ f, probe = .error f →
      (∀ e, f = .cli e → e.type ≠ .not_authenticated) →
      checkAuth probe = .error f) := by
  refine ⟨?_, ?_, ?_⟩
  · cases probe with
    | ok u => simp [checkAuth]
    | error f =>
      cases f with
      | cli e =>
        by_cases h : e.type = .not_authenticated
        · simp only [checkAuth, if_pos h]
          constructor
          · intro _; exact ⟨e, rfl, h⟩
          · intro _; trivial
        · simp only [checkAuth, if_neg h]
          constructor
          · intro hc; exact absurd hc (by simp)
          · rintro ⟨e', he', ht⟩
            cases he'
            exact absurd ht h
      | other m =>
        simp [checkAuth]
  · cases probe with
    | ok u => simp [checkAuth]
    | error f =>
      cases f with
      | cli e =>
        by_cases h : e.type = .not_authenticated <;>
          simp [checkAuth, h]
      | other m => simp [checkAuth]
  · intro f hf hne
    subst hf
    cases f with
    | cli e =>
      have h := hne e rfl
      simp [checkAuth, h]
    | other m => rfl

/-- Witness for C6 at concrete probe outcomes: a not_authenticated failure
collapses to false, a network_error failure propagates unchanged, and a
successful probe yields true. -/
theorem c6_checkAuth_collapse_witness :
    checkAuth (.error (.cli { message := "na", type := .not_authenticated })) = .ok false ∧
    checkAuth (.error (.cli { message := "net", type := .network_error })) =
      .error (.cli { message := "net", type := .network_error }) ∧
    checkAuth (.ok ()) = .ok true := by
  refine ⟨?_, ?_, ?_⟩
  · exact ((c6_checkAuth_collapse _).1).mpr ⟨_, rfl, rfl⟩
  · exact (c6_checkAuth_collapse _).2.2 _ rfl (by intro e he; cases he; decide)
  · exact ((c6_checkAuth_collapse _).2.1).mpr rfl

/-- C4: an item content object containing none of the recognized
discriminator keys detects as a note with no login payload (and the total
function never throws), and in general the detection agrees with the
first-match-in-listed-order rule table. -/
theorem c4_item_type_detection :
    (∀ cd : Json, isRecord cd = true →
      (∀ k ∈ ["Login", "Note", "CreditCard", "credit_card", "Identity",
          "Alias", "SshKey", "ssh_key", "Wifi"], (cd.get? k).isNone = true) →
      getItemTypeFromContent (some cd) = (.note, none)) ∧
    (∀ cd, (getItemTypeFromContent cd).1 = specItemTypeFirstMatch cd) := by
  constructor
  · intro cd hrec habs
    have hL := habs "Login" (by simp)
    have hN := habs "Note" (by simp)
    have hC := habs "CreditCard" (by simp)
    have hc := habs "credit_card" (by simp)
    have hI := habs "Identity" (by simp)
    have hA := habs "Alias" (by simp)
    have hS := habs "SshKey" (by simp)
    have hs2 := habs "ssh_key" (by simp)
    have hW := habs "Wifi" (by simp)
    rw [Option.isNone_iff_eq_none] at hL hN hC hc hI hA hS hs2 hW
    simp [getItemTypeFromContent, hrec, hL, hN, hC, hc, hI, hA, hS, hs2, hW, isRecordOpt]
  · intro cd
    cases cd with
    | none => rfl
    | some j =>
      by_cases hrec : isRecord j
      · by_cases h1 : isRecordOpt (j.get? "Login") = true <;>
          by_cases h2 : (isRecordOpt (j.get? "Note") || (j.get? "Note").isSome) = true <;>
          by_cases h3 : (isRecordOpt (j.get? "CreditCard") || isRecordOpt (j.get? "credit_card")) = true <;>
          by_cases h4 : isRecordOpt (j.get? "Identity") = true <;>
          by_cases h5 : isRecordOpt (j.get? "Alias") = true <;>
          by_cases h6 : (isRecordOpt (j.get? "SshKey") || isRecordOpt (j.get? "ssh_key")) = true <;>
          by_cases h7 : isRecordOpt (j.get? "Wifi") = true <;>
          simp [getItemTypeFromContent, specItemTypeFirstMatch, itemTypeRules, List.find?,
            hrec, h1, h2, h3, h4, h5, h6, h7]
      · simp [getItemTypeFromContent, specItemTypeFirstMatch, hrec]

/-- Witness for C4: a content object carrying only an unrecognized
discriminator key detects as a note. -/
theorem c4_item_type_detection_witness :
    getItemTypeFromContent (some (Json.obj [("FutureKind", Json.obj [])])) =
      (ItemType.note, none) :=
  c4_item_type_detection.1 _ rfl (by decide)

/-- C1: the failure classification of runCli coincides everywhere with the
precedence the specification states (timeout, then ENOENT, then keyring,
authentication and network phrase groups over the lower-cased combined
stderr and exception text, else unknown), and on the concrete probes: a
killed process classifies as timeout, an ENOENT failure classifies as
not_installed regardless of stderr, stderr containing connection refused
classifies as network_error, and stderr containing not authenticated
classifies as not_authenticated. -/
theorem c1_runCli_failure_classification :
    (∀ f, runCliErrorType f = specFailureClassification f) ∧
    runCliErrorType
      { killed := true, signal := some "SIGTERM", code := none, errno := none,
        message := "", stderr := some "not authenticated" } = .timeout ∧
    runCliErrorType
      { killed := false, signal := none, code := some "ENOENT", errno := none,
        message := "spawn pass-cli ENOENT", stderr := some "not authenticated" } = .not_installed ∧
    runCliErrorType
      { killed := false, signal := none, code := none, errno := none,
        message := "Command failed", stderr := some "Error: Connection refused" } = .network_error ∧
    runCliErrorType
      { killed := false, signal := none, code := none, errno := none,
        message := "", stderr := some "Error: Not Authenticated" } = .not_authenticated := by
  refine ⟨?_, by decide, by decide, by decide, by decide⟩
  intro f
  simp only [runCliErrorType, specFailureClassification, classifyCliError, textMatchesAny,
    keyringPhrases, authRequiredPhrases, networkTroublePhrases, List.any_cons, List.any_nil,
    Bool.or_false, Bool.or_assoc]

/-- C2: a vault payload whose share id is unusable under every accepted
spelling, or whose name is unusable, normalizes to an invalid_output error
with no partial record, and every vault normalizeVault returns has a
non-empty share id and name. -/
theorem c2_normalizeVault_required_fields (raw : Json) :
    (((∀ sp ∈ ["share_id", "shareId", "shareID", "id"],
          trimOrUndefined (raw.get? sp) = none) ∨
        trimOrUndefined (raw.get? "name") = none →
      ∃ e, normalizeVault raw = .error e ∧ e.type = .invalid_output)) ∧
    (∀ v, normalizeVault raw = .ok v → v.shareId ≠ "" ∧ v.name ≠ "") := by
  constructor
  · intro h
    by_cases hrec : isRecord raw
    · rcases h with hall | hname
      · have h1 := hall "share_id" (by simp)
        have h2 := hall "shareId" (by simp)
        have h3 := hall "shareID" (by simp)
        have h4 := hall "id" (by simp)
        have hc : trimOrUndefined (jsCoalesce (raw.get? "share_id")
            (jsCoalesce (raw.get? "shareId") (jsCoalesce (raw.get? "shareID") (raw.get? "id")))) = none :=
          trim_coalesce_none h1 (trim_coalesce_none h2 (trim_coalesce_none h3 h4))
        refine ⟨vaultDataError, ?_, rfl⟩
        simp [normalizeVault, hrec, hc]
      · refine ⟨vaultDataError, ?_, rfl⟩
        cases hs : trimOrUndefined (jsCoalesce (raw.get? "share_id")
            (jsCoalesce (raw.get? "shareId") (jsCoalesce (raw.get? "shareID") (raw.get? "id")))) <;>
          simp [normalizeVault, hrec, hs, hname]
    · exact ⟨vaultDataError, by simp [normalizeVault, hrec], rfl⟩
  · intro v hv
    by_cases hrec : isRecord raw
    · cases hs : trimOrUndefined (jsCoalesce (raw.get? "share_id")
          (jsCoalesce (raw.get? "shareId") (jsCoalesce (raw.get? "shareID") (raw.get? "id")))) with
      | none => simp [normalizeVault, hrec, hs] at hv
      | some sid =>
        cases hn : trimOrUndefined (raw.get? "name") with
        | none => simp [normalizeVault, hrec, hs, hn] at hv
        | some nm =>
          simp only [normalizeVault, hrec, hs, hn, if_true] at hv
          cases hv
          exact ⟨trim_some_ne_empty hs, trim_some_ne_empty hn⟩
    · simp [normalizeVault, hrec] at hv

/-- Witness for C2: a payload with a name but no share id under any
spelling fails with invalid_output. -/
theorem c2_normalizeVault_required_fields_witness :
    ∃ e, normalizeVault (Json.obj [("name", Json.str "Personal")]) = .error e ∧
      e.type = .invalid_output :=
  (c2_normalizeVault_required_fields _).1 (Or.inl (by decide))

/-- An entry that is not an object or lacks a usable name or value is
dropped by the custom-field mapper. -/
theorem dropped_custom_field_entry_none {e : Json}
    (h : isRecord e = false ∨
      trimOrUndefined (jsCoalesce (e.get? "name") (e.get? "key")) = none ∨
      trimOrUndefined (e.get? "value") = none) :
    normalizeCustomFieldEntry e = none := by
  rcases h with h | h | h
  · simp [normalizeCustomFieldEntry, h]
  · by_cases hrec : isRecord e
    · cases hv : trimOrUndefined (e.get? "value") <;>
        simp [normalizeCustomFieldEntry, hrec, h, hv]
    · simp [normalizeCustomFieldEntry, hrec]
  · by_cases hrec : isRecord e
    · cases hn : trimOrUndefined (jsCoalesce (e.get? "name") (e.get? "key")) <;>
        simp [normalizeCustomFieldEntry, hrec, h, hn]
    · simp [normalizeCustomFieldEntry, hrec]

/-- C8: normalizeCustomFields never returns an empty sequence, an empty
source array normalizes to absent, entries that are not objects or lack a
usable name or value are dropped individually, and when any entry
survives, the result is exactly the in-order list of surviving entries. -/
theorem c8_normalizeCustomFields :
    (∀ raw, normalizeCustomFields raw ≠ some []) ∧
    normalizeCustomFields (some (Json.arr [])) = none ∧
    (∀ (l₁ l₂ : List Json) (e : Json),
      (isRecord e = false ∨
        trimOrUndefined (jsCoalesce (e.get? "name") (e.get? "key")) = none ∨
        trimOrUndefined (e.get? "value") = none) →
      normalizeCustomFields (some (Json.arr (l₁ ++ e :: l₂))) =
        normalizeCustomFields (some (Json.arr (l₁ ++ l₂)))) ∧
    (∀ l : List Json, l.filterMap normalizeCustomFieldEntry ≠ [] →
      normalizeCustomFields (some (Json.arr l)) =
        some (l.filterMap normalizeCustomFieldEntry)) := by
  refine ⟨?_, rfl, ?_, ?_⟩
  · intro raw
    rcases raw with _ | j
    · simp [normalizeCustomFields]
    · cases j with
      | arr l =>
        simp only [normalizeCustomFields]
        split
        · simp
        · rename_i hne
          simp only [ne_eq, Option.some.injEq]
          intro hEq
          rw [hEq] at hne
          simp at hne
      | null => simp [normalizeCustomFields]
      | bool b => simp [normalizeCustomFields]
      | num n => simp [normalizeCustomFields]
      | str s => simp [normalizeCustomFields]
      | obj fs => simp [normalizeCustomFields]
  · intro l₁ l₂ e h
    have he := dropped_custom_field_entry_none h
    simp [normalizeCustomFields, List.filterMap_append, List.filterMap_cons, he]
  · intro l h
    simp only [normalizeCustomFields]
    rw [if_neg (by simpa using h)]

/-- Witness for C8: an entry with a blank name is dropped and the
surviving entry is kept. -/
theorem c8_normalizeCustomFields_witness :
    normalizeCustomFields (some (Json.arr
      [Json.obj [("name", Json.str "  ")],
       Json.obj [("name", Json.str "k"), ("value", Json.str "v")]])) =
      some [{ name := "k", value := "v", type := .text }] :=
  (c8_normalizeCustomFields.2.2.1 []
    [Json.obj [("name", Json.str "k"), ("value", Json.str "v")]]
    (Json.obj [("name", Json.str "  ")])
    (Or.inr (Or.inl (by decide)))).trans (by decide)

/-- C7: an entry of the item-list payload that is an object whose trimmed
state is Trashed is excluded before normalization, so it never influences
the result, malformed or not. -/
theorem c7_trashed_items_filtered (vaultName : String) (l₁ l₂ : List Json) (e : Json)
    (hrec : isRecord e = true)
    (hstate : trimOrUndefined (e.get? "state") = some "Trashed") :
    listItemsFromVaultRaw vaultName (Json.arr (l₁ ++ e :: l₂)) =
      listItemsFromVaultRaw vaultName (Json.arr (l₁ ++ l₂)) := by
  have hkeep : keepItemEntry e = false := by simp [keepItemEntry, hrec, hstate]
  simp [listItemsFromVaultRaw, listItemsPipeline, List.filter_append, List.filter_cons, hkeep]

/-- Witness for C7: a vault payload with one malformed Trashed entry and
one active item yields exactly the active item. -/
theorem c7_trashed_items_filtered_witness :
    listItemsFromVaultRaw "Personal" (Json.arr
      [Json.obj [("state", Json.str " Trashed ")],
       Json.obj [("share_id", Json.str "S1"), ("id", Json.str "I1"),
         ("state", Json.str "Active"),
         ("content", Json.obj [("title", Json.str "My Login"),
           ("content", Json.obj [("Login", Json.obj [("username", Json.str "user1")])])])]]) =
      .ok [{ shareId := "S1", itemId := "I1", title := "My Login", type := .login,
             vaultName := "Personal", username := some "user1", email := none,
             hasTotp := false }] :=
  (c7_trashed_items_filtered "Personal" []
    [Json.obj [("share_id", Json.str "S1"), ("id", Json.str "I1"),
      ("state", Json.str "Active"),
      ("content", Json.obj [("title", Json.str "My Login"),
        ("content", Json.obj [("Login", Json.obj [("username", Json.str "user1")])])])]]
    (Json.obj [("state", Json.str " Trashed ")]) rfl (by decide)).trans (by decide)

/-- A failing mapping exposes a failing element. -/
theorem mapOrFirstError_error {f : Json → Except PassCliError Item} :
    ∀ {l : List Json} {e : PassCliError}, mapOrFirstError f l = .error e →
      ∃ x ∈ l, f x = .error e := by
  intro l
  induction l with
  | nil => intro e h; simp [mapOrFirstError] at h
  | cons x xs ih =>
    intro e h
    simp only [mapOrFirstError] at h
    cases hf : f x with
    | error e1 =>
      rw [hf] at h
      cases h
      exact ⟨x, List.mem_cons_self x xs, hf⟩
    | ok y =>
      rw [hf] at h
      cases hm : mapOrFirstError f xs with
      | error e2 =>
        rw [hm] at h
        cases h
        obtain ⟨z, hz, hfz⟩ := ih hm
        exact ⟨z, List.mem_cons_of_mem x hz, hfz⟩
      | ok ys => rw [hm] at h; exact Except.noConfusion h

/-- C10 (amended): entries of the item-list payload that are not of
JavaScript object type are silently removed by the pre-normalization
filter (the pipeline only sees entries isRecord accepts, which includes
arrays), and any failure of the pipeline is produced by normalizeItem on
an entry that survived the filter: an object-typed entry whose state is
not Trashed. -/
theorem c10_item_list_filter_amended :
    (∀ (vn : String) (l : List Json),
      listItemsPipeline vn l = listItemsPipeline vn (l.filter (fun e => isRecord e))) ∧
    (∀ (vn : String) (l : List Json) (err : PassCliError),
      listItemsPipeline vn l = .error err →
      ∃ e, e ∈ l ∧ isRecord e = true ∧
        trimOrUndefined (e.get? "state") ≠ some "Trashed" ∧
        normalizeItem e (some vn) = .error err) := by
  constructor
  · intro vn l
    have hfilters : l.filter keepItemEntry =
        (l.filter (fun e => isRecord e)).filter keepItemEntry := by
      rw [List.filter_filter]
      apply List.filter_congr
      intro a _
      cases h : isRecord a <;> simp [keepItemEntry, h]
    simp only [listItemsPipeline]
    rw [hfilters]
  · intro vn l err h
    obtain ⟨x, hmem, hx⟩ := mapOrFirstError_error h
    rw [List.mem_filter] at hmem
    obtain ⟨hl, hkeep⟩ := hmem
    simp only [keepItemEntry, Bool.and_eq_true, decide_eq_true_eq] at hkeep
    exact ⟨x, hl, hkeep.1, hkeep.2, hx⟩

/-- Witness for C10 (amended): an array entry survives the filter and
produces the invalid_output failure of normalizeItem. -/
theorem c10_item_list_filter_amended_witness :
    ∃ e, e ∈ [Json.arr []] ∧ isRecord e = true ∧
      trimOrUndefined (e.get? "state") ≠ some "Trashed" ∧
      normalizeItem e (some "Personal") = .error itemDataError :=
  c10_item_list_filter_amended.2 "Personal" [Json.arr []] itemDataError (by decide)

/-- Counterexample to C10 as stated: the payload entry below is a JSON
array, not a JSON object, yet it passes the pre-normalization filter
(JavaScript typeof reports arrays as objects) and reaches normalizeItem,
which fails the whole call with invalid_output. -/
theorem c10_item_list_filter_counterexample :
    listItemsFromVaultRaw "Personal" (Json.arr [Json.arr []]) = .error itemDataError ∧
    isRecord (Json.arr []) = true ∧
    itemDataError.type = .invalid_output := by
  refine ⟨by decide, rfl, rfl⟩

/-- The lexicographic comparison is reflexive. -/
theorem charListLe_refl : ∀ l : List Char, charListLe l l = true := by
  intro l
  induction l with
  | nil => rfl
  | cons a as ih => simp [charListLe, ih]

/-- The lexicographic comparison is total. -/
theorem charListLe_total : ∀ a b : List Char, charListLe a b = true ∨ charListLe b a = true := by
  intro a
  induction a with
  | nil => intro b; left; rfl
  | cons x xs ih =>
    intro b
    cases b with
    | nil => right; rfl
    | cons y ys =>
      by_cases hxy : x = y
      · subst hxy
        rcases ih ys with h | h
        · left; simp [charListLe, h]
        · right; simp [charListLe, h]
      · have hyx : ¬ y = x := fun h => hxy h.symm
        rcases lt_trichotomy x y with hlt | heq | hlt
        · left; simp [charListLe, hxy, hlt]
        · exact absurd heq hxy
        · right; simp [charListLe, hyx, hlt]

/-- The lexicographic comparison is transitive. -/
theorem charListLe_trans : ∀ a b c : List Char,
    charListLe a b = true → charListLe b c = true → charListLe a c = true := by
  intro a
  induction a with
  | nil => intro b c _ _; rfl
  | cons x xs ih =>
    intro b c hab hbc
    cases b with
    | nil => simp [charListLe] at hab
    | cons y ys =>
      cases c with
      | nil => simp [charListLe] at hbc
      | cons z zs =>
        by_cases hxy : x = y
        · subst hxy
          simp only [charListLe, if_pos rfl] at hab
          by_cases hyz : x = z
          · subst hyz
            simp only [charListLe, if_pos rfl] at hbc ⊢
            exact ih ys zs hab hbc
          · simp only [charListLe, if_neg hyz] at hbc ⊢
            exact hbc
        · simp only [charListLe, if_neg hxy] at hab
          rw [decide_eq_true_eq] at hab
          by_cases hyz : y = z
          · subst hyz
            simp only [charListLe, if_neg (ne_of_lt hab)]
            rw [decide_eq_true_eq]
            exact hab
          · simp only [charListLe, if_neg hyz] at hbc
            rw [decide_eq_true_eq] at hbc
            have hxz : x < z := lt_trans hab hbc
            simp only [charListLe, if_neg (ne_of_lt hxz)]
            rw [decide_eq_true_eq]
            exact hxz

/-- String comparison is reflexive. -/
theorem jsStrLe_refl (s : String) : jsStrLe s s = true := charListLe_refl _

/-- String comparison is total. -/
theorem jsStrLe_total (a b : String) : jsStrLe a b = true ∨ jsStrLe b a = true :=
  charListLe_total _ _

/-- String comparison is transitive. -/
theorem jsStrLe_trans {a b c : String}
    (h1 : jsStrLe a b = true) (h2 : jsStrLe b c = true) : jsStrLe a c = true :=
  charListLe_trans _ _ _ h1 h2

/-- Membership in an insertion. -/
theorem mem_insertStr {x a : String} : ∀ {l : List String},
    a ∈ insertStr x l ↔ a = x ∨ a ∈ l := by
  intro l
  induction l with
  | nil => simp [insertStr]
  | cons y ys ih =>
    simp only [insertStr]
    split
    · simp [List.mem_cons]
    · simp only [List.mem_cons, ih]
      tauto

/-- Sorting preserves membership. -/
theorem mem_jsSortStrings {a : String} : ∀ {l : List String},
    a ∈ jsSortStrings l ↔ a ∈ l := by
  intro l
  induction l with
  | nil => simp [jsSortStrings]
  | cons x xs ih => simp [jsSortStrings, mem_insertStr, ih, List.mem_cons]

/-- The head of the sorted key list is a member and a lower bound of the
original list. -/
theorem jsSortStrings_head_min : ∀ (l : List String) (k : String),
    (jsSortStrings l).head? = some k → k ∈ l ∧ ∀ a ∈ l, jsStrLe k a = true := by
  intro l
  induction l with
  | nil => intro k h; simp [jsSortStrings] at h
  | cons x xs ih =>
    intro k h
    simp only [jsSortStrings] at h
    cases hs : jsSortStrings xs with
    | nil =>
      rw [hs] at h
      simp only [insertStr, List.head?] at h
      cases h
      refine ⟨List.mem_cons_self _ _, ?_⟩
      intro a ha
      rcases List.mem_cons.mp ha with rfl | ha2
      · exact jsStrLe_refl _
      · exfalso
        have hmem := mem_jsSortStrings.mpr ha2
        rw [hs] at hmem
        simp at hmem
    | cons y rest =>
      have hy := ih y (by rw [hs]; rfl)
      rw [hs] at h
      simp only [insertStr] at h
      split at h
      · rename_i hxy
        simp only [List.head?] at h
        cases h
        refine ⟨List.mem_cons_self _ _, ?_⟩
        intro a ha
        rcases List.mem_cons.mp ha with rfl | ha2
        · exact jsStrLe_refl _
        · exact jsStrLe_trans hxy (hy.2 a ha2)
      · rename_i hxy
        simp only [List.head?] at h
        cases h
        refine ⟨List.mem_cons_of_mem _ hy.1, ?_⟩
        intro a ha
        rcases List.mem_cons.mp ha with ha1 | ha2
        · subst ha1
          rcases jsStrLe_total a k with htot | htot
          · exact absurd htot hxy
          · exact htot
        · exact hy.2 a ha2

/-- A successful lookup exposes a member. -/
theorem lookupStr_mem : ∀ {codes : List (String × String)} {k v : String},
    lookupStr codes k = some v → (k, v) ∈ codes := by
  intro codes
  induction codes with
  | nil => intro k v h; simp [lookupStr] at h
  | cons p rest ih =>
    intro k v h
    obtain ⟨k1, v1⟩ := p
    simp only [lookupStr] at h
    split at h
    · rename_i heq
      cases h
      subst heq
      exact List.mem_cons_self _ _
    · exact List.mem_cons_of_mem _ (ih h)

/-- A key of the association list looks up successfully. -/
theorem lookupStr_isSome : ∀ {codes : List (String × String)} {k : String},
    k ∈ codes.map Prod.fst → ∃ v, lookupStr codes k = some v := by
  intro codes
  induction codes with
  | nil => intro k h; simp at h
  | cons p rest ih =>
    intro k h
    obtain ⟨k1, v1⟩ := p
    by_cases hk : k1 = k
    · exact ⟨v1, by simp [lookupStr, hk]⟩
    · simp only [List.map_cons, List.mem_cons] at h
      rcases h with rfl | h2
      · exact absurd rfl hk
      · obtain ⟨v, hv⟩ := ih h2
        exact ⟨v, by simp [lookupStr, hk, hv]⟩

/-- A key absent from the association list looks up to none. -/
theorem lookupStr_none : ∀ {codes : List (String × String)} {k : String},
    k ∉ codes.map Prod.fst → lookupStr codes k = none := by
  intro codes
  induction codes with
  | nil => intro k _; rfl
  | cons p rest ih =>
    intro k h
    obtain ⟨k1, v1⟩ := p
    simp only [List.map_cons, List.mem_cons, not_or] at h
    have hne : ¬ k1 = k := fun hc => h.1 hc.symm
    simp [lookupStr, hne, ih h.2]

/-- Every value of the usable-codes list is non-empty. -/
theorem usableCodes_value {entries : List (String × Json)} {k v : String}
    (h : (k, v) ∈ usableCodes entries) : v.data.isEmpty = false := by
  simp only [usableCodes, List.mem_filterMap] at h
  obtain ⟨kv, _, hmap⟩ := h
  cases ht : trimOrUndefined (some kv.2) with
  | none => rw [ht] at hmap; simp at hmap
  | some s =>
    rw [ht] at hmap
    simp only [Option.map_some', Option.some.injEq, Prod.mk.injEq] at hmap
    obtain ⟨_, rfl⟩ := hmap
    exact trim_some_isEmpty_false ht

/-- The keys of the usable codes come from the original mapping. -/
theorem usableCodes_keys_sub {entries : List (String × Json)} {k : String}
    (h : k ∈ (usableCodes entries).map Prod.fst) : k ∈ entries.map Prod.fst := by
  simp only [List.mem_map] at h ⊢
  obtain ⟨p, hp, hfst⟩ := h
  simp only [usableCodes, List.mem_filterMap] at hp
  obtain ⟨kv, hkv, hmap⟩ := hp
  cases ht : trimOrUndefined (some kv.2) with
  | none => rw [ht] at hmap; simp at hmap
  | some s =>
    rw [ht] at hmap
    simp only [Option.map_some', Option.some.injEq] at hmap
    exact ⟨kv, hkv, by rw [← hmap] at hfst; exact hfst⟩

/-- A successful field lookup exposes a member of the object. -/
theorem lookupField_mem : ∀ {fields : List (String × Json)} {k : String} {j : Json},
    lookupField fields k = some j → (k, j) ∈ fields := by
  intro fields
  induction fields with
  | nil => intro k j h; simp [lookupField] at h
  | cons p rest ih =>
    intro k j h
    obtain ⟨k1, j1⟩ := p
    simp only [lookupField] at h
    split at h
    · rename_i heq
      cases h
      subst heq
      exact List.mem_cons_self _ _
    · exact List.mem_cons_of_mem _ (ih h)

/-- On a mapping with pairwise distinct keys, looking a key up among the
usable codes is trimming the value the raw mapping holds at that key. -/
theorem lookupStr_usableCodes : ∀ (entries : List (String × Json)) (k : String),
    (entries.map Prod.fst).Nodup →
    lookupStr (usableCodes entries) k = trimOrUndefined (lookupField entries k) := by
  intro entries
  induction entries with
  | nil => intro k _; rfl
  | cons p rest ih =>
    intro k hnd
    obtain ⟨k1, j1⟩ := p
    simp only [List.map_cons, List.nodup_cons] at hnd
    obtain ⟨hk1, hndr⟩ := hnd
    by_cases hk : k1 = k
    · subst hk
      cases ht : trimOrUndefined (some j1) with
      | some s =>
        simp [usableCodes, List.filterMap_cons, ht, lookupStr, lookupField]
      | none =>
        have hnone : lookupStr (usableCodes rest) k1 = none :=
          lookupStr_none (fun hc => hk1 (usableCodes_keys_sub hc))
        simp only [usableCodes, List.filterMap_cons] at hnone ⊢
        simp [ht, hnone, lookupField]
    · have ih2 := ih k hndr
      simp only [usableCodes, List.filterMap_cons] at ih2 ⊢
      cases ht : trimOrUndefined (some j1) with
      | some s => simp [ht, lookupStr, hk, lookupField, ih2]
      | none => simp [ht, lookupField, hk, ih2]

/-- A string below the empty string in the lexicographic order is the
empty string. -/
theorem jsStrLe_to_empty {k : String} (h : jsStrLe k "" = true) : k = "" := by
  cases k with
  | mk d =>
    cases d with
    | nil => rfl
    | cons c cs => simp [jsStrLe, charListLe] at h

/-- A non-empty string has a non-empty character list. -/
theorem isEmpty_false_of_ne {k : String} (h : k ≠ "") : k.data.isEmpty = false := by
  cases k with
  | mk d =>
    cases d with
    | nil => exact absurd rfl h
    | cons c cs => rfl

/-- On a mapping whose values are scalars, getTotpCodes keeps exactly the
usable entries. -/
theorem getTotpCodes_obj (entries : List (String × Json))
    (hscal : ∀ kv ∈ entries, isRecord kv.2 = false) :
    getTotpCodes (Json.obj entries) = .ok (usableCodes entries) := by
  have hts : isRecordOpt ((Json.obj entries).get? "totps") = false := by
    cases hl : (Json.obj entries).get? "totps" with
    | none => rfl
    | some j =>
      have hl2 : lookupField entries "totps" = some j := hl
      have hm : ("totps", j) ∈ entries := lookupField_mem hl2
      have := hscal _ hm
      simpa [isRecordOpt] using this
  simp [getTotpCodes, hts, jsEntries, isRecord]

/-- C3 (amended): on every mapping of named scalar TOTP values with
distinct names, getTotp returns the trimmed value of the key literally
named totp whenever that value is usable; otherwise, when the
lexicographically first usable key is not the empty string, it returns
that key's value; when the lexicographically first usable key is the
empty string — falsy in JavaScript, so the guarded fallback lookup is
skipped — and when no usable value exists at all, it fails with the
invalid_output no-TOTP-fields error; moreover the two tie-break examples
of the specification evaluate as stated. -/
theorem c3_totp_selection :
    (∀ entries : List (String × Json),
      (∀ kv ∈ entries, isRecord kv.2 = false) →
      (entries.map Prod.fst).Nodup →
      ((∀ v, trimOrUndefined (lookupField entries "totp") = some v →
          getTotp (Json.obj entries) = .ok v) ∧
       (trimOrUndefined (lookupField entries "totp") = none → usableCodes entries ≠ [] →
         "" ∉ (usableCodes entries).map Prod.fst →
         ∃ k v, getTotp (Json.obj entries) = .ok v ∧ (k, v) ∈ usableCodes entries ∧
           ∀ kv ∈ usableCodes entries, jsStrLe k kv.1 = true) ∧
       (trimOrUndefined (lookupField entries "totp") = none →
         "" ∈ (usableCodes entries).map Prod.fst →
         getTotp (Json.obj entries) = .error totpNoFieldsError) ∧
       (usableCodes entries = [] → getTotp (Json.obj entries) = .error totpNoFieldsError))) ∧
    getTotp (Json.obj [("sms", Json.str "111111"), ("totp", Json.str "222222")]) = .ok "222222" ∧
    getTotp (Json.obj [("b", Json.str "333333"), ("a", Json.str "444444")]) = .ok "444444" := by
  refine ⟨?_, by decide, by decide⟩
  intro entries hscal hnd
  have hcodes := getTotpCodes_obj entries hscal
  have hlk := lookupStr_usableCodes entries "totp" hnd
  refine ⟨?_, ?_, ?_, ?_⟩
  · intro v hv
    have hp : lookupStr (usableCodes entries) "totp" = some v := hlk.trans hv
    have hne := trim_some_isEmpty_false hv
    simp [getTotp, hcodes, hp, jsTruthy, hne]
  · intro hnone hne hnoempty
    have hp : lookupStr (usableCodes entries) "totp" = none := hlk.trans hnone
    have hkeys : (usableCodes entries).map Prod.fst ≠ [] := by
      intro h
      exact hne (List.map_eq_nil_iff.mp h)
    obtain ⟨k0, hk0⟩ : ∃ k0, k0 ∈ (usableCodes entries).map Prod.fst := by
      cases hcm : (usableCodes entries).map Prod.fst with
      | nil => exact absurd hcm hkeys
      | cons a l => exact ⟨a, List.mem_cons_self _ _⟩
    have hsmem : k0 ∈ jsSortStrings ((usableCodes entries).map Prod.fst) :=
      mem_jsSortStrings.mpr hk0
    cases hs : jsSortStrings ((usableCodes entries).map Prod.fst) with
    | nil => rw [hs] at hsmem; simp at hsmem
    | cons k rest =>
      have hmin := jsSortStrings_head_min ((usableCodes entries).map Prod.fst) k
        (by rw [hs]; rfl)
      have hkne : k.data.isEmpty = false :=
        isEmpty_false_of_ne (fun hk => hnoempty (hk ▸ hmin.1))
      obtain ⟨v, hv⟩ := lookupStr_isSome hmin.1
      have hvne : v.data.isEmpty = false := usableCodes_value (lookupStr_mem hv)
      refine ⟨k, v, ?_, lookupStr_mem hv, ?_⟩
      · simp [getTotp, hcodes, hp, jsTruthy, hs, hkne, hv, hvne]
      · intro kv hkv
        exact hmin.2 kv.1 (List.mem_map_of_mem Prod.fst hkv)
  · intro hnone hempty
    have hp : lookupStr (usableCodes entries) "totp" = none := hlk.trans hnone
    have hsmem : "" ∈ jsSortStrings ((usableCodes entries).map Prod.fst) :=
      mem_jsSortStrings.mpr hempty
    cases hs : jsSortStrings ((usableCodes entries).map Prod.fst) with
    | nil => rw [hs] at hsmem; simp at hsmem
    | cons k rest =>
      have hmin := jsSortStrings_head_min ((usableCodes entries).map Prod.fst) k
        (by rw [hs]; rfl)
      have hk : k = "" := jsStrLe_to_empty (hmin.2 "" hempty)
      subst hk
      simp [getTotp, hcodes, hp, jsTruthy, hs]
  · intro hempty
    simp [getTotp, hcodes, hempty, jsTruthy, lookupStr, jsSortStrings]

/-- Witness for C3: the totp key is preferred in the first specification
example, the mapping of the second example has usable codes, no totp key
and no empty key, so the lexicographically first key is selected, and a
mapping whose only usable key is the empty string reaches the
invalid_output failure. -/
theorem c3_totp_selection_witness :
    getTotp (Json.obj [("sms", Json.str "111111"), ("totp", Json.str "222222")]) =
      .ok "222222" ∧
    (∃ k v, getTotp (Json.obj [("b", Json.str "333333"), ("a", Json.str "444444")]) = .ok v ∧
      (k, v) ∈ usableCodes [("b", Json.str "333333"), ("a", Json.str "444444")] ∧
      ∀ kv ∈ usableCodes [("b", Json.str "333333"), ("a", Json.str "444444")],
        jsStrLe k kv.1 = true) ∧
    getTotp (Json.obj [("", Json.str "123456")]) = .error totpNoFieldsError := by
  refine ⟨?_, ?_, ?_⟩
  · exact (c3_totp_selection.1 [("sms", Json.str "111111"), ("totp", Json.str "222222")]
      (by decide) (by decide)).1 "222222" (by decide)
  · exact (c3_totp_selection.1 [("b", Json.str "333333"), ("a", Json.str "444444")]
      (by decide) (by decide)).2.1 (by decide) (by decide) (by decide)
  · exact (c3_totp_selection.1 [("", Json.str "123456")]
      (by decide) (by decide)).2.2.1 (by decide) (by decide)

/-- Counterexample to C3 as stated: in the mapping below a usable value
exists and the lexicographically first (and only) key is the empty
string, so the claim requires the value to be returned, yet getTotp takes
the falsy-guard branch of the source and fails with the invalid_output
no-TOTP-fields error. -/
theorem c3_totp_selection_counterexample :
    getTotp (Json.obj [("", Json.str "123456")]) = .error totpNoFieldsError ∧
    usableCodes [("", Json.str "123456")] = [("", "123456")] ∧
    totpNoFieldsError.type = .invalid_output := by
  refine ⟨by decide, by decide, rfl⟩

end ProtonPass
